import Mathlib

/-!
Shallow embedding of the text-analysis pipeline in `src/main.rs`:
tokenizer, filter chain, n-gram generator, frequency counter and ranker,
plus the flag parsing of `main`. Strings are modelled by Lean `String`
(a list of Unicode scalar chars); Rust's `usize` arithmetic is modelled
over `Nat` with explicit wrap-around modulo `2 ^ 64` where the source can
overflow. Character classes (`is_alphanumeric`, `is_whitespace`,
`to_lowercase`) are modelled by their ASCII behaviour, which is all the
claims exercise.
-/

namespace TextAnalyser

/-- Rust `usize` modulus: `2 ^ 64`. -/
def USIZE : Nat := 2 ^ 64

/-- Model of Rust `char::is_alphanumeric` (ASCII fragment): letters and digits. -/
def isAlnum (c : Char) : Bool := c.isAlphanum

/-- Model of Rust `char::is_whitespace` (ASCII fragment). -/
def isWs (c : Char) : Bool := c.isWhitespace

/-- Model of Rust `str::to_lowercase` (ASCII fragment): lowercase each char. -/
def rustToLower (s : String) : String := ⟨s.data.map Char.toLower⟩

/-- Model of Rust `str::trim_matches(|c| !c.is_alphanumeric())` on the char
list: drop non-alphanumeric characters from both ends, keeping the interior. -/
def trimNonAlnumList (l : List Char) : List Char :=
  ((l.dropWhile fun c => !isAlnum c).reverse.dropWhile fun c => !isAlnum c).reverse

/-- `trim_matches` lifted to strings. -/
def trimNonAlnum (s : String) : String := ⟨trimNonAlnumList s.data⟩

/-- Model of Rust `str::split_whitespace`: split on runs of whitespace,
producing no empty pieces. `acc` holds the current piece reversed. -/
def splitWsAux : List Char → List Char → List (List Char)
  | [], acc => if acc.isEmpty then [] else [acc.reverse]
  | c :: cs, acc =>
    if isWs c then
      if acc.isEmpty then splitWsAux cs [] else acc.reverse :: splitWsAux cs []
    else splitWsAux cs (c :: acc)

/-- `split_whitespace` on strings. -/
def splitWhitespace (s : String) : List String :=
  (splitWsAux s.data []).map fun l => ⟨l⟩

/-- `tokenize` from src/main.rs: split on whitespace, trim non-alphanumeric
edges, lowercase, drop empties. -/
def tokenize (text : String) : List String :=
  (((splitWhitespace text).map fun w => rustToLower (trimNonAlnum w)).filter
    fun w => !w.isEmpty)

/-- `" ".join` of a token window, as in `tokens[i..i + n].join(" ")`. -/
def joinSpace (ts : List String) : String := String.intercalate " " ts

/-- `generate_ngrams` from src/main.rs under release-mode (wrap-around)
`usize` arithmetic: `n - 1` is computed modulo `2 ^ 64`, and the subtraction
from `tokens.len()` is Rust's `saturating_sub`, which Nat subtraction models
exactly. -/
def generate_ngrams (tokens : List String) (n : Nat) : List String :=
  if n = 1 then tokens
  else
    (List.range (tokens.length - (n + USIZE - 1) % USIZE)).map fun i =>
      joinSpace ((tokens.drop i).take n)

/-- `generate_ngrams` under checked (debug-mode) arithmetic: `n - 1` panics
on underflow when `n = 0`, modelled by `none`. -/
def generate_ngramsChecked (tokens : List String) (n : Nat) : Option (List String) :=
  if n = 1 then some tokens
  else if n = 0 then none
  else
    some ((List.range (tokens.length - (n - 1))).map fun i =>
      joinSpace ((tokens.drop i).take n))

end TextAnalyser

namespace TextAnalyser

/-! Frequency counting: the Rust fold over a `HashMap` is modelled by an
association list updated in insertion order; lookups see exactly the map's
key-value pairs, and no claim depends on iteration order. -/

/-- One step of the fold in `count_frequencies`:
`*acc.entry(w.clone()).or_insert(0) += 1`. -/
def bump : List (String × Nat) → String → List (String × Nat)
  | [], w => [(w, 1)]
  | (k, v) :: rest, w =>
    if k = w then (k, v + 1) :: rest else (k, v) :: bump rest w

/-- `count_frequencies` from src/main.rs: fold the gram sequence into a table. -/
def count_frequencies (words : List String) : List (String × Nat) :=
  words.foldl bump []

/-- The count a table associates to a gram (0 when absent). -/
def lookupCount : List (String × Nat) → String → Nat
  | [], _ => 0
  | (k, v) :: rest, w => if k = w then v else lookupCount rest w

/-- The ranker in `main`: `sorted.sort_by(|a, b| b.1.cmp(&a.1))`, a sort by
count descending (ties in some deterministic order, which no claim fixes). -/
def ranked (tbl : List (String × Nat)) : List (String × Nat) :=
  tbl.insertionSort fun a b => b.2 ≤ a.2

/-- UTF-8 encoded size of one Unicode scalar value, as Rust stores chars in a
`String`. -/
def charUtf8Size (c : Char) : Nat :=
  if c.toNat ≤ 0x7F then 1
  else if c.toNat ≤ 0x7FF then 2
  else if c.toNat ≤ 0xFFFF then 3
  else 4

/-- Rust `str::len`: the UTF-8 byte length of the string, not its character
count. -/
def byteLen (s : String) : Nat := (s.data.map charUtf8Size).sum

/-- The min-length filter in `main`:
`tokens.into_iter().filter(|w| w.len() > n)` — `w.len()` is byte length. -/
def applyMinLength (n : Nat) (tokens : List String) : List String :=
  tokens.filter fun w => n < byteLen w

/-- The hard-coded stopword list of `stopwords()` in src/main.rs (the Rust
`HashSet` is used only for membership, which list membership models). -/
def stopwords : List String :=
  ["a", "an", "and", "are", "as", "at", "be", "but", "by",
   "for", "if", "in", "into", "is", "it", "no", "not",
   "of", "on", "or", "such", "that", "the", "their", "then",
   "there", "these", "they", "this", "to", "was", "will", "with"]

/-- Rust `str::starts_with(c: char)`: the first character equals `c`. -/
def startsWithChar (w : String) (c : Char) : Bool := w.data.head? == some c

/-- The option struct `main` fills from the flags. `σ` abstracts the compiled
regex type of the external `regex` crate. -/
structure Config (σ : Type) where
  top_n : Nat
  regex_filter : Option σ
  ngrams : Nat
  filter_stopwords : Bool
  min_length : Option Nat
  starts_with : Option Char

/-- The defaults `main` initializes before flag parsing. -/
def initConfig {σ : Type} : Config σ :=
  { top_n := 10, regex_filter := none, ngrams := 1, filter_stopwords := false,
    min_length := none, starts_with := none }

/-- Model of Rust `str::strip_prefix` on char lists: `some` of the rest of the
string when the pattern is a prefix, else `none`. -/
def dropFlagTag : List Char → List Char → Option (List Char)
  | [], s => some s
  | _ :: _, [] => none
  | p :: ps, c :: cs => if c = p then dropFlagTag ps cs else none

/-- `strip_prefix` on strings. -/
def flagValue (p s : String) : Option String :=
  (dropFlagTag p.data s.data).map fun l => ⟨l⟩

/-- Model of Rust `str::parse::<usize>()`: an optional `+` sign, then one or
more ASCII digits, value below `2 ^ 64`; anything else is `none`. -/
def parseUsize (s : String) : Option Nat :=
  let l := if s.data.head? == some '+' then s.data.tail else s.data
  if l.isEmpty then none
  else if l.all Char.isDigit then
    let v := l.foldl (fun n c => n * 10 + (c.toNat - 48)) 0
    if v < USIZE then some v else none
  else none

/-- The flag-parsing loop of `main` (`args.iter().skip(2).for_each(...)`),
checking the flags in the source's order. `compile` abstracts
`Regex::new(pattern).ok()`: `none` models a pattern that fails to compile. -/
def parseFlags {σ : Type} (compile : String → Option σ) (args : List String) :
    Config σ :=
  args.foldl
    (fun cfg arg =>
      match flagValue "--top=" arg with
      | some n => { cfg with top_n := (parseUsize n).getD 10 }
      | none =>
        match flagValue "--match-regex=" arg with
        | some pattern => { cfg with regex_filter := compile pattern }
        | none =>
          match flagValue "--ngrams=" arg with
          | some n => { cfg with ngrams := (parseUsize n).getD 1 }
          | none =>
            if arg = "--filter-stopwords" then
              { cfg with filter_stopwords := true }
            else
              match flagValue "--min-length=" arg with
              | some n => { cfg with min_length := parseUsize n }
              | none =>
                match flagValue "--starts-with=" arg with
                | some c => { cfg with starts_with := c.data.head? }
                | none => cfg)
    initConfig

/-- The filter chain of `main`, in its fixed order: stopwords, regex,
min-length, starts-with. `matchFn` abstracts `Regex::is_match` of the
external regex crate. -/
def filteredTokens {σ : Type} (cfg : Config σ) (matchFn : σ → String → Bool)
    (text : String) : List String :=
  let t0 := tokenize text
  let t1 := if cfg.filter_stopwords then
      t0.filter fun w => !(stopwords.contains w)
    else t0
  let t2 := match cfg.regex_filter with
    | some re => t1.filter fun w => matchFn re w
    | none => t1
  let t3 := match cfg.min_length with
    | some n => applyMinLength n t2
    | none => t2
  match cfg.starts_with with
  | some c => t3.filter fun w => startsWithChar w c
  | none => t3

/-- The gram sequence `main` feeds to the frequency counter. -/
def pipelineGrams {σ : Type} (cfg : Config σ) (matchFn : σ → String → Bool)
    (text : String) : List String :=
  generate_ngrams (filteredTokens cfg matchFn text) cfg.ngrams

/-- The data `main` hands to the reporting code: `grams.len()`,
`sorted.len()`, `sorted.first()` and which branch of
`if !sorted.is_empty() ... else ...` runs (`noMatches` is
`sorted.is_empty()`, the "No words matched the filter." path). -/
structure Report where
  totalItems : Nat
  uniqueItems : Nat
  mostCommon : Option (String × Nat)
  noMatches : Bool
  deriving DecidableEq, Repr

/-- The report computed from an already-filtered token sequence. -/
def makeReport (tokens : List String) (n : Nat) : Report :=
  let grams := generate_ngrams tokens n
  let freqs := count_frequencies grams
  let sorted := ranked freqs
  { totalItems := grams.length, uniqueItems := sorted.length,
    mostCommon := sorted.head?, noMatches := sorted.isEmpty }

/-- The whole run: filter chain, n-grams, counting, ranking, report data. -/
def runReport {σ : Type} (cfg : Config σ) (matchFn : σ → String → Bool)
    (text : String) : Report :=
  makeReport (filteredTokens cfg matchFn text) cfg.ngrams

end TextAnalyser

namespace TextAnalyser

/-! Helper lemmas. -/

lemma usize_eq : USIZE = 18446744073709551616 := by norm_num [USIZE]

/-- For `1 ≤ n < 2 ^ 64`, the wrapped `n - 1` is the plain `n - 1`. -/
lemma wrap_pred (n : Nat) (h1 : 1 ≤ n) (h2 : n < USIZE) :
    (n + USIZE - 1) % USIZE = n - 1 := by
  rw [usize_eq] at h2 ⊢
  omega

/-- N-grams of the empty token sequence are empty, whatever the width. -/
lemma generate_ngrams_nil (n : Nat) : generate_ngrams [] n = [] := by
  unfold generate_ngrams
  split
  · rfl
  · simp

/-- C1: for `1 < n ≤ len(T)` (with `n` a `usize`), `generate_ngrams`
produces exactly `len(T) - n + 1` grams, the `i`-th being the space-joined
window of `n` consecutive tokens starting at `i`, in left-to-right order;
for `n = 1` it returns the input unchanged; and for `n > len(T)` with
`n > 1` it returns the empty sequence. -/
theorem ngrams_window_spec (T : List String) (n : Nat) (hn : n < USIZE) :
    (1 < n → n ≤ T.length →
      (generate_ngrams T n).length = T.length - n + 1 ∧
      ∀ i, i < T.length - n + 1 →
        (generate_ngrams T n)[i]? = some (joinSpace ((T.drop i).take n))) ∧
    (n = 1 → generate_ngrams T n = T) ∧
    (1 < n → T.length < n → generate_ngrams T n = []) := by
  refine ⟨fun h1 h2 => ?_, fun h1 => ?_, fun h1 h2 => ?_⟩
  · have hne : ¬ n = 1 := by omega
    have hm := wrap_pred n (by omega) hn
    constructor
    · simp only [generate_ngrams, if_neg hne, hm, List.length_map,
        List.length_range]
      omega
    · intro i hi
      simp only [generate_ngrams, if_neg hne, hm]
      rw [List.getElem?_map, List.getElem?_range (by omega)]
      rfl
  · simp [generate_ngrams, h1]
  · have hne : ¬ n = 1 := by omega
    have hm := wrap_pred n (by omega) hn
    have hz : T.length - (n - 1) = 0 := by omega
    simp [generate_ngrams, hne, hm, hz]

/-- C1 witness: the window count at `T = ["a", "b", "c"]`, `n = 2`, and the
empty output at `n = 5 > 3`. -/
theorem ngrams_window_spec_witness :
    (generate_ngrams ["a", "b", "c"] 2).length = 3 - 2 + 1 ∧
    generate_ngrams ["a", "b", "c"] 5 = [] := by
  have h := ngrams_window_spec ["a", "b", "c"] 2 (by norm_num [USIZE])
  have h5 := ngrams_window_spec ["a", "b", "c"] 5 (by norm_num [USIZE])
  exact ⟨(h.1 (by norm_num) (by norm_num)).1, h5.2.2 (by norm_num) (by norm_num)⟩

/-- C10: `generate_ngrams` has no guard for `n = 0`: under checked (debug)
arithmetic `n - 1` underflows, so the call fails for every token sequence;
under wrap-around (release) `usize` arithmetic it returns the empty
sequence for every token sequence a Rust `Vec` can hold. -/
theorem ngrams_zero_width (T : List String) (h : T.length < USIZE) :
    generate_ngramsChecked T 0 = none ∧ generate_ngrams T 0 = [] := by
  rw [usize_eq] at h
  refine ⟨rfl, ?_⟩
  unfold generate_ngrams
  rw [if_neg (by omega)]
  have h1 : (0 + USIZE - 1) % USIZE = USIZE - 1 := by
    rw [usize_eq]
  have h2 : T.length - (USIZE - 1) = 0 := by
    rw [usize_eq]
    omega
  rw [h1, h2]
  rfl

/-- C10 witness: the zero-width behaviour at the concrete sequence `["a"]`. -/
theorem ngrams_zero_width_witness :
    generate_ngramsChecked ["a"] 0 = none ∧ generate_ngrams ["a"] 0 = [] :=
  ngrams_zero_width ["a"] (by norm_num [USIZE])

/-- C2: `tokenize` splits on whitespace runs, trims non-alphanumeric edges
(keeping interior punctuation), lowercases, and drops pieces that become
empty, keeping input order; in particular it maps
"Hello, world! Don't stop." to `["hello", "world", "don't", "stop"]` and
the empty input to the empty sequence. The last conjunct (a sublist of the
normalized pieces) is the order-preservation of the discarding step. -/
theorem tokenize_spec :
    tokenize "Hello, world! Don't stop." = ["hello", "world", "don't", "stop"] ∧
    tokenize "" = [] ∧
    (∀ t, tokenize t =
      ((splitWhitespace t).map fun w => rustToLower (trimNonAlnum w)).filter
        fun w => !w.isEmpty) ∧
    (∀ t w, w ∈ tokenize t → w ≠ "") ∧
    (∀ t, (tokenize t).Sublist
      ((splitWhitespace t).map fun w => rustToLower (trimNonAlnum w))) := by
  refine ⟨by decide, rfl, fun t => rfl, fun t w hw => ?_, fun t => ?_⟩
  · have hf := List.of_mem_filter hw
    intro he
    subst he
    simp [String.isEmpty] at hf
  · exact List.filter_sublist _

/-- One `bump` adds one to the bumped key's count and nothing else. -/
lemma lookupCount_bump (acc : List (String × Nat)) (w v : String) :
    lookupCount (bump acc w) v = lookupCount acc v + (if w = v then 1 else 0) := by
  induction acc with
  | nil => by_cases h : w = v <;> simp [bump, lookupCount, h]
  | cons p rest ih =>
    obtain ⟨k, u⟩ := p
    by_cases hkw : k = w
    · subst hkw
      by_cases hkv : k = v <;> simp [bump, lookupCount, hkv]
    · by_cases hkv : k = v
      · subst hkv
        simp [bump, lookupCount, hkw, if_neg (Ne.symm hkw)]
      · simp [bump, lookupCount, hkw, hkv, ih]

/-- The fold of `count_frequencies` adds each word's multiplicity. -/
lemma lookupCount_foldl (G : List String) (acc : List (String × Nat)) (v : String) :
    lookupCount (G.foldl bump acc) v = lookupCount acc v + G.count v := by
  induction G generalizing acc with
  | nil => simp [lookupCount]
  | cons w G ih =>
    simp only [List.foldl_cons, ih, lookupCount_bump, List.count_cons]
    by_cases h : w = v
    · simp [h]
      omega
    · simp [h, Ne.symm h]

/-- `bump` keeps the key list, only appending a genuinely new key. -/
lemma keys_bump (acc : List (String × Nat)) (w : String) :
    (bump acc w).map Prod.fst =
      if w ∈ acc.map Prod.fst then acc.map Prod.fst
      else acc.map Prod.fst ++ [w] := by
  induction acc with
  | nil => simp [bump]
  | cons p rest ih =>
    obtain ⟨k, u⟩ := p
    by_cases hkw : k = w
    · subst hkw
      simp [bump]
    · simp only [bump, if_neg hkw, List.map_cons, ih]
      by_cases hmem : w ∈ rest.map Prod.fst
      · simp [hmem, Ne.symm hkw]
      · simp [hmem, Ne.symm hkw]

/-- `bump` preserves distinctness of the table's keys. -/
lemma nodup_keys_bump (acc : List (String × Nat)) (w : String)
    (h : (acc.map Prod.fst).Nodup) : ((bump acc w).map Prod.fst).Nodup := by
  rw [keys_bump]
  by_cases hmem : w ∈ acc.map Prod.fst
  · simpa [hmem] using h
  · simp [hmem, List.nodup_append, h]

/-- The whole fold preserves distinctness of the table's keys. -/
lemma nodup_keys_foldl (G : List String) (acc : List (String × Nat))
    (h : (acc.map Prod.fst).Nodup) : ((G.foldl bump acc).map Prod.fst).Nodup := by
  induction G generalizing acc with
  | nil => exact h
  | cons w G ih => exact ih _ (nodup_keys_bump acc w h)

/-- `bump` keeps every count positive. -/
lemma one_le_bump (acc : List (String × Nat)) (w : String)
    (h : ∀ p ∈ acc, 1 ≤ p.2) : ∀ p ∈ bump acc w, 1 ≤ p.2 := by
  induction acc with
  | nil => simp [bump]
  | cons q rest ih =>
    obtain ⟨k, u⟩ := q
    by_cases hkw : k = w
    · subst hkw
      intro p hp
      rcases List.mem_cons.mp (by simpa [bump] using hp) with h1 | h1
      · subst h1
        simp
      · exact h p (List.mem_cons_of_mem _ h1)
    · intro p hp
      rcases List.mem_cons.mp (by simpa [bump, hkw] using hp) with h1 | h1
      · subst h1
        exact h (k, u) (List.mem_cons_self _ _)
      · exact ih (fun q hq => h q (List.mem_cons_of_mem _ hq)) p h1

/-- The whole fold keeps every count positive. -/
lemma one_le_foldl (G : List String) (acc : List (String × Nat))
    (h : ∀ p ∈ acc, 1 ≤ p.2) : ∀ p ∈ G.foldl bump acc, 1 ≤ p.2 := by
  induction G generalizing acc with
  | nil => exact h
  | cons w G ih => exact ih _ (one_le_bump acc w h)

/-- A key with a positive count is present in the table. -/
lemma mem_keys_of_lookupCount_pos (tbl : List (String × Nat)) (w : String)
    (h : 0 < lookupCount tbl w) : w ∈ tbl.map Prod.fst := by
  induction tbl with
  | nil => simp [lookupCount] at h
  | cons p rest ih =>
    obtain ⟨k, u⟩ := p
    by_cases hkw : k = w
    · simp [hkw]
    · simp only [lookupCount, if_neg hkw] at h
      simp [ih h]

/-- C3: `count_frequencies G` maps each distinct gram to exactly its number
of occurrences in `G` (no double counting: keys are distinct; no omission:
every gram of `G` has an entry), and every count in the table is at
least 1. -/
theorem count_frequencies_spec (G : List String) :
    (∀ w, lookupCount (count_frequencies G) w = G.count w) ∧
    ((count_frequencies G).map Prod.fst).Nodup ∧
    (∀ p ∈ count_frequencies G, 1 ≤ p.2) ∧
    (∀ w ∈ G, w ∈ (count_frequencies G).map Prod.fst) := by
  refine ⟨fun w => ?_, ?_, ?_, fun w hw => ?_⟩
  · simpa [lookupCount] using lookupCount_foldl G [] w
  · exact nodup_keys_foldl G [] (by simp)
  · exact one_le_foldl G [] (by simp)
  · apply mem_keys_of_lookupCount_pos
    rw [show lookupCount (count_frequencies G) w = G.count w from by
      simpa [lookupCount] using lookupCount_foldl G [] w]
    exact List.count_pos_iff.mpr hw

/-- `bump` adds exactly one to the total of all counts. -/
lemma sum_bump (acc : List (String × Nat)) (w : String) :
    ((bump acc w).map Prod.snd).sum = (acc.map Prod.snd).sum + 1 := by
  induction acc with
  | nil => simp [bump]
  | cons p rest ih =>
    obtain ⟨k, u⟩ := p
    by_cases hkw : k = w
    · subst hkw
      simp [bump]
      omega
    · simp [bump, hkw, ih]
      omega

/-- C5: the counts in `count_frequencies G` sum to the length of `G`. -/
theorem count_frequencies_sum (G : List String) :
    ((count_frequencies G).map Prod.snd).sum = G.length := by
  suffices h : ∀ acc : List (String × Nat),
      ((G.foldl bump acc).map Prod.snd).sum = (acc.map Prod.snd).sum + G.length by
    simpa using h []
  induction G with
  | nil => simp
  | cons w G ih =>
    intro acc
    simp only [List.foldl_cons, ih, sum_bump, List.length_cons]
    omega

/-- The ranker's order (count descending) is total. -/
instance : IsTotal (String × Nat) (fun a b => b.2 ≤ a.2) :=
  ⟨fun a b => le_total b.2 a.2⟩

/-- The ranker's order (count descending) is transitive. -/
instance : IsTrans (String × Nat) (fun a b => b.2 ≤ a.2) :=
  ⟨fun _ _ _ hab hbc => le_trans hbc hab⟩

/-- C4: for every frequency table (whose counts are positive, as the data
model requires), the ranked list is a permutation of the table — exactly the
same pairs, as one total ordering — its counts are non-increasing across
entries, and every entry's count is at least 1. -/
theorem ranked_spec (tbl : List (String × Nat)) (h : ∀ p ∈ tbl, 1 ≤ p.2) :
    (ranked tbl).Perm tbl ∧
    List.Sorted (fun a b : String × Nat => b.2 ≤ a.2) (ranked tbl) ∧
    ∀ p ∈ ranked tbl, 1 ≤ p.2 := by
  refine ⟨List.perm_insertionSort _ tbl, List.sorted_insertionSort _ tbl,
    fun p hp => h p ?_⟩
  exact (List.perm_insertionSort _ tbl).mem_iff.mp hp

/-- C4 witness: the ranker's contract at the table `[("a", 1), ("b", 2)]`. -/
theorem ranked_spec_witness :
    (ranked [("a", 1), ("b", 2)]).Perm [("a", 1), ("b", 2)] ∧
    List.Sorted (fun a b : String × Nat => b.2 ≤ a.2) (ranked [("a", 1), ("b", 2)]) ∧
    ∀ p ∈ ranked [("a", 1), ("b", 2)], 1 ≤ p.2 :=
  ranked_spec [("a", 1), ("b", 2)] (by decide)

/-- C6 counterexample: the filter compares Rust `str::len`, the UTF-8 byte
length, not the character count. The token "héllo" has character length 5,
yet with threshold `N = 5` it is kept (its byte length is 6), where the
claim says a token of character length `N` is excluded. -/
theorem min_length_counterexample :
    ("héllo" : String).length = 5 ∧ applyMinLength 5 ["héllo"] = ["héllo"] :=
  ⟨rfl, rfl⟩

/-- On ASCII-only strings, byte length and character length coincide. -/
lemma byteLen_eq_length_of_ascii (w : String)
    (h : ∀ c ∈ w.data, c.toNat ≤ 0x7F) : byteLen w = w.length := by
  obtain ⟨l⟩ := w
  simp only [byteLen, String.length] at *
  induction l with
  | nil => simp
  | cons c cs ih =>
    have hc : charUtf8Size c = 1 := by
      have := h c (by simp)
      simp [charUtf8Size, this]
    simp only [List.map_cons, List.sum_cons, hc, List.length_cons]
    rw [ih (fun c hc => h c (by simp [hc]))]
    omega

/-- C6 as amended: for every token sequence and threshold `N`, the
minimum-length filter keeps exactly the tokens whose UTF-8 byte length
(Rust `str::len`) is strictly greater than `N` — stated unconditionally,
non-ASCII tokens included; a token whose byte length equals `N` is
excluded (strict boundary); and only on sequences of ASCII-only tokens,
where byte length and character length coincide, does this reduce to the
character-length filter the original claim describes. -/
theorem min_length_filter_spec (N : Nat) (ts : List String) :
    (∀ w ∈ ts, (w ∈ applyMinLength N ts ↔ N < byteLen w)) ∧
    (∀ w ∈ ts, byteLen w = N → w ∉ applyMinLength N ts) ∧
    ((∀ w ∈ ts, ∀ c ∈ w.data, c.toNat ≤ 0x7F) →
      applyMinLength N ts = ts.filter fun w => N < w.length) := by
  refine ⟨fun w hw => ?_, fun w hw hb => ?_, fun h => ?_⟩
  · simp [applyMinLength, List.mem_filter, hw]
  · simp [applyMinLength, List.mem_filter, hb]
  · apply List.filter_congr
    intro w hw
    rw [byteLen_eq_length_of_ascii w (h w hw)]

/-- C6 witness: the non-ASCII token "héllo" (byte length 6) is kept at
threshold 5 by the byte-length characterization, and on the ASCII tokens
`["cat", "fish"]` with threshold 3 the filter is the character-length one
("cat" excluded, "fish" kept). -/
theorem min_length_filter_spec_witness :
    ("héllo" ∈ applyMinLength 5 ["héllo", "cat"] ↔ 5 < byteLen "héllo") ∧
    applyMinLength 3 ["cat", "fish"] = List.filter (fun w => 3 < w.length) ["cat", "fish"] := by
  constructor
  · exact (min_length_filter_spec 5 ["héllo", "cat"]).1 "héllo" (by decide)
  · exact (min_length_filter_spec 3 ["cat", "fish"]).2.2 (by decide)

/-- C7: when the filter chain eliminates every token, the report shows
total items 0, unique items 0, no most-common entry, and takes the
"no matches" path; the empty sequence flows through n-gram generation,
counting and ranking (all total functions here, so no failure). -/
theorem empty_pipeline_report {σ : Type} (cfg : Config σ)
    (matchFn : σ → String → Bool) (text : String)
    (h : filteredTokens cfg matchFn text = []) :
    runReport cfg matchFn text =
      { totalItems := 0, uniqueItems := 0, mostCommon := none, noMatches := true } := by
  unfold runReport makeReport
  rw [h, generate_ngrams_nil]
  rfl

/-- C7 witness: `--min-length=100` eliminates every token of "hi there". -/
theorem empty_pipeline_report_witness :
    runReport (σ := Unit) (parseFlags (fun _ => none) ["--min-length=100"])
      (fun _ _ => true) "hi there" =
      { totalItems := 0, uniqueItems := 0, mostCommon := none, noMatches := true } :=
  empty_pipeline_report _ _ _ (by decide)

/-- C8: configuration errors never abort flag parsing: a regex pattern that
fails to compile (`compile pat = none`) leaves the regex filter disabled,
and a malformed numeric value falls back to the default — 10 for `--top`,
1 for `--ngrams`. -/
theorem flag_fallback_spec {σ : Type} (compile : String → Option σ)
    (v pat : String) (hv : parseUsize v = none) (hp : compile pat = none) :
    (parseFlags compile ["--top=" ++ v]).top_n = 10 ∧
    (parseFlags compile ["--ngrams=" ++ v]).ngrams = 1 ∧
    (parseFlags compile ["--match-regex=" ++ pat]).regex_filter = none := by
  refine ⟨?_, ?_, ?_⟩
  · show (parseUsize v).getD 10 = 10
    rw [hv]
    rfl
  · show (parseUsize v).getD 1 = 1
    rw [hv]
    rfl
  · show compile pat = none
    exact hp

/-- C8 witness: the non-numeric value "abc" and the non-compiling pattern
"(" (the regex crate rejects an unclosed group). -/
theorem flag_fallback_spec_witness :
    (parseFlags (σ := Unit) (fun _ => none) ["--top=" ++ "abc"]).top_n = 10 ∧
    (parseFlags (σ := Unit) (fun _ => none) ["--ngrams=" ++ "abc"]).ngrams = 1 ∧
    (parseFlags (σ := Unit) (fun _ => none) ["--match-regex=" ++ "("]).regex_filter = none :=
  flag_fallback_spec (fun _ => none) "abc" "(" (by decide) rfl

/-- C9: with `--filter-stopwords` and the default `n = 1`, the run on
"the cat and the dog" drops "the" and "and", and the frequency table is
exactly `{cat: 1, dog: 1}`. -/
theorem stopword_pipeline_example :
    pipelineGrams (σ := Unit) (parseFlags (fun _ => none) ["--filter-stopwords"])
        (fun _ _ => true) "the cat and the dog" = ["cat", "dog"] ∧
    count_frequencies (pipelineGrams (σ := Unit)
        (parseFlags (fun _ => none) ["--filter-stopwords"])
        (fun _ _ => true) "the cat and the dog") = [("cat", 1), ("dog", 1)] :=
  ⟨by decide, by decide⟩

end TextAnalyser
